import Mathlib

/-
Verification of the `LayersList` collection
(src/gui/components/_layers_list/model.py).

The collection is embedded shallowly: the Python list of layers becomes a
`List Layer`, the weak viewer back-reference becomes an `Option Nat`
(a viewer id; `none` models an unbound / collected viewer), and each public
mutating method becomes a pure function returning the new state together with
the notifications it emitted and the Python exception it raised, if any.
Python exceptions are modelled by the `PyErr` type; Python list indexing,
insertion and slicing semantics (negative indices, clamping) are reproduced
by the `py*` helpers.
-/

set_option autoImplicit false

namespace LayersModel

/-- An element of the collection (a visual layer).  The `Layer` class itself
lives outside the modelled file; only the capability surface the collection
uses is embedded: a display `name`, a `selected` flag, the collection-owned
`order` field (`_order` in the source) and the layer's `viewer`
back-reference.  `id` is an identity tag standing for Python object
identity (`is` comparisons and default `==`). -/
structure Layer where
  id : Nat
  name : String
  selected : Bool
  order : Int
  viewer : Option Nat
deriving DecidableEq, Repr

instance : Inhabited Layer := ⟨⟨0, "", false, 0, none⟩⟩

/-- The Python exceptions the modelled code can raise.  The two `ValueError`
shapes raised by `_reordered_list` are kept apart so that their payloads
(the offending duplicate, the list of never-provided indices) can be
inspected. -/
inductive PyErr where
  | keyError
  | indexError
  | typeError
  | attributeError
  | valueErrorNotFound
  | duplicateIndex (i : Int)
  | missingIndices (l : List Int)
deriving DecidableEq, Repr

/-- Notifications emitted through the `events` emitter group. -/
inductive Ev where
  | add (id : Nat) (index : Int)
  | remove (id : Nat)
  | reorderEv
deriving DecidableEq, Repr

/-- The heterogeneous identifiers accepted by `_to_index`: a raw integer
position, a layer name, or a layer object. -/
inductive Ident where
  | pos (i : Int)
  | name (s : String)
  | layer (l : Layer)
deriving DecidableEq, Repr

/-- The queries accepted by `__getitem__`: an integer, a string, a slice
(modelled with optional start/stop, step omitted as the code never passes
one), or any other object — represented by a layer, the case exercised by
`__contains__`. -/
inductive Query where
  | pos (i : Int)
  | name (s : String)
  | slice (start stop : Option Int)
  | layer (l : Layer)
deriving DecidableEq, Repr

/-- Result of `__getitem__`: a single layer for int/str queries, a sublist
for slices. -/
inductive GetResult where
  | one (l : Layer)
  | many (ls : List Layer)
deriving DecidableEq, Repr

/-- State of a `LayersList`: the underlying Python list `_list` and the weak
viewer reference (`none` when unbound or dead). -/
structure LayersList where
  list : List Layer
  viewer : Option Nat
deriving DecidableEq, Repr

/-- Outcome of one public mutating call: the state after the call, the
notifications that were emitted, and the exception that escaped the call,
if any. -/
structure OpResult where
  state : LayersList
  events : List Ev
  err : Option PyErr
deriving DecidableEq, Repr

/-! ### Python list primitives -/

/-- Normalize a Python index for a list of length `n`: nonnegative indices
must be `< n`, negative indices wrap from the end; anything else is out of
range. -/
def pyIdx (n : Nat) (i : Int) : Option Nat :=
  if 0 ≤ i ∧ i < (n : Int) then some i.toNat
  else if 0 ≤ i + (n : Int) ∧ i < 0 then some (i + (n : Int)).toNat
  else none

/-- The slot Python's `list.insert` actually uses: negative indices wrap
(clamped at 0), large indices clamp to the length. -/
def pyInsertPos (n : Nat) (i : Int) : Nat :=
  if i < 0 then (i + (n : Int)).toNat else min i.toNat n

/-- Python `list.insert`. -/
def pyInsert {α : Type} (l : List α) (i : Int) (x : α) : List α :=
  let k := pyInsertPos l.length i
  l.take k ++ x :: l.drop k

/-- One bound of a Python slice with step 1. -/
def sliceBound (n : Nat) (v : Option Int) (dflt : Nat) : Nat :=
  match v with
  | none => dflt
  | some s => if s < 0 then (s + (n : Int)).toNat else min s.toNat n

/-- Python `l[a:b]` (step 1). -/
def pySlice {α : Type} (l : List α) (a b : Option Int) : List α :=
  let s := sliceBound l.length a 0
  let t := sliceBound l.length b l.length
  (l.take t).drop s

/-- The order-fixing loop of the `_reorder` callback: element `j` of the
result (counting from `i`) gets order `-(i+j)`. -/
def setOrders : Nat → List Layer → List Layer
  | _, [] => []
  | i, x :: xs => {x with order := -(i : Int)} :: setOrders (i+1) xs

/-- Boolean check that element `j` (counting from `i`) has order `-(i+j)`;
`ordersFrom 0 l` is the P2 stacking-order invariant. -/
def ordersFrom : Nat → List Layer → Bool
  | _, [] => true
  | i, x :: xs => decide (x.order = -(i : Int)) && ordersFrom (i+1) xs

/-! ### Name incrementing (`util.naming.inc_name_count`)

The function `inc_name_count` is imported from `...util.naming`, which is
not part of the modelled sources; it is modelled from the spec below. -/

/-- Character for a decimal digit value. -/
def digitChar (d : Nat) : Char := Char.ofNat (48 + d)

/-- Decimal digit value of a character. -/
def charVal (c : Nat) : Nat := c - 48

/-- Little-endian decimal digits of `n`, with explicit fuel (`fuel = n`
always suffices). -/
def digitsRevAux : Nat → Nat → List Nat
  | 0, _ => []
  | fuel+1, n => if n = 0 then [] else n % 10 :: digitsRevAux fuel (n / 10)

/-- Value of a little-endian decimal digit list. -/
def revVal : List Nat → Nat
  | [] => 0
  | d :: ds => d + 10 * revVal ds

/-- Decimal numeral of `n`, most significant digit first. -/
def natToChars (n : Nat) : List Char := ((digitsRevAux n n).map digitChar).reverse

/-- Value of a digit string given least significant digit first. -/
def revDigitsVal (ds : List Char) : Nat := revVal (ds.map (fun c => charVal c.toNat))

/-- The ` [k]` suffix carrying a name's trailing counter. -/
def counterSuffix (k : Nat) : List Char := ' ' :: '[' :: (natToChars k ++ [']'])

/-- Parse a trailing ` [k]` counter group from a reversed character list. -/
def splitCounterRev : List Char → Option (List Char × Nat)
  | [] => none
  | c :: rest =>
    if c = ']' then
      match rest.dropWhile Char.isDigit with
      | c2 :: c3 :: baseRev =>
        if c2 = '[' ∧ c3 = ' ' then
          if rest.takeWhile Char.isDigit = [] then none
          else some (baseRev.reverse, revDigitsVal (rest.takeWhile Char.isDigit))
        else none
      | _ => none
    else none

/-- Split a name into its base and trailing counter, when it has one. -/
def splitCounter (s : List Char) : Option (List Char × Nat) :=
  splitCounterRev s.reverse

/-- Modelled from the spec: `inc_name_count` (imported from `util.naming`,
whose source is not included) applies the deterministic "increment trailing
counter" transform — `"foo"` becomes `"foo [1]"`, `"foo [1]"` becomes
`"foo [2]"`. -/
def inc_name_count (name : String) : String :=
  match splitCounter name.data with
  | none => ⟨name.data ++ counterSuffix 1⟩
  | some (b, c) => ⟨b ++ counterSuffix (c+1)⟩

/-! ### Lookup helpers (`_name_match`, `index`, `_to_index`) -/

/-- The scan inside `_name_match`: walk the (already sliced) list carrying
the absolute position `i`, skipping the `ignore` layer (identity
comparison), and return the first position/layer pair whose name matches. -/
def nmAux (name : String) (ignore : Option Layer) : List Layer → Nat → Option (Nat × Layer)
  | [], _ => none
  | x :: xs, i =>
    match ignore with
    | some ig =>
      if x.id = ig.id then nmAux name ignore xs (i+1)
      else if x.name = name then some (i, x) else nmAux name ignore xs (i+1)
    | none =>
      if x.name = name then some (i, x) else nmAux name ignore xs (i+1)

/-- `LayersList._name_match`: check whether a name matches a layer within
the `[start:stop]` interval, optionally ignoring one layer; returns the
first matching (index, layer) pair. -/
def LayersList._name_match (st : LayersList) (name : String)
    (start stop : Option Nat) (ignore : Option Layer) : Option (Nat × Layer) :=
  let s := start.getD 0
  let seg := match stop with
    | none => st.list.drop s
    | some t => (st.list.take t).drop s
  nmAux name ignore seg s

/-- Position of a layer by identity (Python `list.index` on the default
`Layer` equality). -/
def layerIdxAux (tgt : Layer) : List Layer → Nat → Option Nat
  | [], _ => none
  | x :: xs, i => if x.id = tgt.id then some i else layerIdxAux tgt xs (i+1)

/-- `LayersList.index` restricted to the two query kinds `_to_index` feeds
it (a name or a layer); raises `ValueError` when there is no match. -/
def LayersList.index (st : LayersList) (q : Ident) : Except PyErr Nat :=
  match q with
  | .name s =>
    match st._name_match s none none none with
    | some (i, _) => .ok i
    | none => .error .valueErrorNotFound
  | .layer l =>
    match layerIdxAux l st.list 0 with
    | some i => .ok i
    | none => .error .valueErrorNotFound
  | .pos _ => .error .typeError

/-- `LayersList._to_index`: layers and names go through `index`; ints pass
through unchanged (no bounds check, no wrapping). -/
def LayersList._to_index (st : LayersList) (obj : Ident) : Except PyErr Int :=
  match obj with
  | .layer l => (st.index (.layer l)).map Int.ofNat
  | .name s => (st.index (.name s)).map Int.ofNat
  | .pos i => .ok i

/-! ### Name coercion (`_coerce_name`) -/

/-- The `while self._name_match(...): name = inc_name_count(name)` loop of
`_coerce_name`, with explicit fuel.  `_coerce_name` runs it with fuel
`len + 1`, which theorem `coerce_go_free` below shows always suffices. -/
def coerce_go (st : LayersList) (ignore : Option Layer) : Nat → String → String
  | 0, name => name
  | fuel+1, name =>
    match st._name_match name none none ignore with
    | some _ => coerce_go st ignore fuel (inc_name_count name)
    | none => name

/-- `LayersList._coerce_name`: coerce a name into a unique equivalent,
ignoring the layer the name is being generated for. -/
def LayersList._coerce_name (st : LayersList) (name : String) (layer : Option Layer) : String :=
  coerce_go st layer (st.list.length + 1) name

/-! ### `__getitem__` and `__contains__` -/

/-- `LayersList.__getitem__`: names go through `_name_match`, everything
else is handed to the Python list.  `IndexError` is caught and turned into
`KeyError`; a failed name lookup also raises `KeyError`; a non-int,
non-str, non-slice query makes the list subscript raise `TypeError`, which
is not caught. -/
def LayersList.getitem (st : LayersList) (q : Query) : Except PyErr GetResult :=
  match q with
  | .name s =>
    match st._name_match s none none none with
    | some (_, x) => .ok (.one x)
    | none => .error .keyError
  | .pos i =>
    match pyIdx st.list.length i with
    | some k => .ok (.one (st.list.getD k default))
    | none => .error .keyError
  | .slice a b => .ok (.many (pySlice st.list a b))
  | .layer _ => .error .typeError

/-- `LayersList.__contains__`: try `self[item]`, catching only `KeyError`. -/
def LayersList.contains (st : LayersList) (q : Query) : Except PyErr Bool :=
  match st.getitem q with
  | .ok _ => .ok true
  | .error .keyError => .ok false
  | .error e => .error e

/-! ### The notification callbacks the collection attaches to itself -/

/-- The item mutation performed by the `_add` callback on the layer at slot
`k`: its order becomes `-len` and its viewer the collection's. -/
def LayersList.addItemOf (st : LayersList) (k : Nat) : Layer :=
  {st.list.getD k default with order := -(st.list.length : Int), viewer := st.viewer}

/-- `LayersList._add` callback for the layer sitting at slot `k`: mutate the
item (order and viewer), then connect the viewer's selection tracker to the
item's select/deselect events — the last step dereferences `self.viewer`
and raises `AttributeError` when no viewer is bound. -/
def LayersList._add (st : LayersList) (k : Nat) : LayersList × Option PyErr :=
  let st1 : LayersList := {st with list := st.list.set k (st.addItemOf k)}
  match st.viewer with
  | none => (st1, some .attributeError)
  | some _ => (st1, none)

/-- `LayersList._reorder` callback: recompute every element's order as
`-index`, then poke the viewer's canvas — which dereferences `self.viewer`
and raises `AttributeError` when no viewer is bound. -/
def LayersList._reorder (st : LayersList) : LayersList × Option PyErr :=
  let st1 : LayersList := {st with list := setOrders 0 st.list}
  match st.viewer with
  | none => (st1, some .attributeError)
  | some _ => (st1, none)

/-- Emission of the `reorder` notification at the end of `swap`/`reorder`:
the `_reorder` callback runs synchronously. -/
def LayersList.finishReorderOp (st1 : LayersList) : OpResult :=
  ⟨(st1._reorder).1, [Ev.reorderEv], (st1._reorder).2⟩

/-- Emission of the `add_item` notification with reported index `idx` for
the layer at slot `k`: the `_add` callback runs synchronously. -/
def LayersList.finishAddOp (st1 : LayersList) (k : Nat) (lid : Nat) (idx : Int) : OpResult :=
  ⟨(st1._add k).1, [Ev.add lid idx], (st1._add k).2⟩

/-! ### Mutating operations -/

/-- `LayersList.append`: append the layer, then emit `add_item` with
`index = len(self) - 1`. -/
def LayersList.append (st : LayersList) (layer : Layer) : OpResult :=
  let st1 : LayersList := {st with list := st.list ++ [layer]}
  st1.finishAddOp (st1.list.length - 1) layer.id ((st1.list.length : Int) - 1)

/-- `LayersList.insert`: resolve `id` to an index, insert the layer before
it, then emit `add_item` with the off-by-one reported index `index - 1`. -/
def LayersList.insert (st : LayersList) (id : Ident) (layer : Layer) : OpResult :=
  match st._to_index id with
  | .error e => ⟨st, [], some e⟩
  | .ok i =>
    let st1 : LayersList := {st with list := pyInsert st.list i layer}
    st1.finishAddOp (pyInsertPos st.list.length i) layer.id (i - 1)

/-- `LayersList.swap`: resolve both identifiers, exchange the two slots in
place, then emit one `reorder` notification. -/
def LayersList.swap (st : LayersList) (a b : Ident) : OpResult :=
  match st._to_index a with
  | .error e => ⟨st, [], some e⟩
  | .ok i =>
    match st._to_index b with
    | .error e => ⟨st, [], some e⟩
    | .ok j =>
      match pyIdx st.list.length j, pyIdx st.list.length i with
      | some jj, some ii =>
        let x := st.list.getD jj default
        let y := st.list.getD ii default
        LayersList.finishReorderOp {st with list := (st.list.set ii x).set jj y}
      | _, _ => ⟨st, [], some .indexError⟩

/-- The `_reordered_list` generator fused with the `self._to_index(o) for o
in ordering` generator feeding it: resolve each identifier, remove it from
the not-yet-seen index pool (`ValueError: duplicate index` when absent),
yield the corresponding layer of the *original* list, and after the whole
input demand that the pool be empty (`ValueError: indices ... not
provided`).  The Python slice assignment materializes the generator fully
before mutating `_list`, so an error here leaves the list untouched. -/
def LayersList.rcGoI (st : LayersList) : List Ident → List Int → Except PyErr (List Layer)
  | [], expected => if expected = [] then .ok [] else .error (.missingIndices expected)
  | q :: qs, expected =>
    match st._to_index q with
    | .error e => .error e
    | .ok o =>
      if o ∈ expected then
        match st.list.get? o.toNat with
        | some x => (st.rcGoI qs (expected.erase o)).map (fun r => x :: r)
        | none => .error .indexError
      else .error (.duplicateIndex o)

/-- `LayersList.reorder`: validate and build the permuted list, replace the
underlying list only on success, then emit one `reorder` notification. -/
def LayersList.reorder (st : LayersList) (ordering : List Ident) : OpResult :=
  match st.rcGoI ordering ((List.range st.list.length).map Int.ofNat) with
  | .error e => ⟨st, [], some e⟩
  | .ok newl => LayersList.finishReorderOp {st with list := newl}

/-- `self[index]` as used inside `_move_layers` (int query; `KeyError` on a
bad index). -/
def LayersList.getLayerAt (st : LayersList) (i : Int) : Except PyErr Layer :=
  match pyIdx st.list.length i with
  | some k => .ok (st.list.getD k default)
  | none => .error .keyError

/-- The `indices.remove(i) for i in selected` loop of `_move_layers`. -/
def removeAll : List Int → List Int → Except PyErr (List Int)
  | acc, [] => .ok acc
  | acc, i :: is =>
    if i ∈ acc then removeAll (acc.erase i) is else .error .valueErrorNotFound

/-- The `indices.insert(insert_idx, elem_idx)` loop of `_move_layers`,
with `insert_idx` counting up from `insert - offset`. -/
def spliceGo : List Int → Int → List Int → List Int
  | acc, _, [] => acc
  | acc, pos, e :: es => spliceGo (pyInsert acc pos e) (pos + 1) es

/-- `LayersList._move_layers`: drag-and-drop reorder.  The moving set is
every selected position when the primary item is selected, else just
`index`; the remaining positions keep their order and the moving set is
spliced back in starting at `insert - offset`, where `offset` counts moving
positions strictly below `insert`; the result is applied via `reorder`. -/
def LayersList._move_layers (st : LayersList) (index insert : Int) : OpResult :=
  let total := st.list.length
  match st.getLayerAt index with
  | .error e => ⟨st, [], some e⟩
  | .ok primary =>
    let selected : List Int :=
      if primary.selected then
        ((List.range total).filter (fun i => (st.list.getD i default).selected)).map Int.ofNat
      else [index]
    match removeAll ((List.range total).map Int.ofNat) selected with
    | .error e => ⟨st, [], some e⟩
    | .ok indices =>
      let offset := (selected.filter (fun i => i < insert)).length
      st.reorder ((spliceGo indices (insert - offset) selected).map Ident.pos)

/-! ### Concrete states used by witnesses and counterexamples -/

/-- A layer with the given identity, name and selection flag. -/
def mkL (id : Nat) (nm : String) (sel : Bool) : Layer := ⟨id, nm, sel, 0, none⟩

/-- `[A, B, C, D]`, nothing selected, a viewer bound. -/
def st4 : LayersList :=
  ⟨[mkL 1 "A" false, mkL 2 "B" false, mkL 3 "C" false, mkL 4 "D" false], some 0⟩

/-- `[A, B, C, D, E]` with exactly `B` and `D` selected, a viewer bound. -/
def st5 : LayersList :=
  ⟨[mkL 1 "A" false, mkL 2 "B" true, mkL 3 "C" false, mkL 4 "D" true, mkL 5 "E" false],
   some 0⟩

/-- `[A, B]`, nothing selected, a viewer bound. -/
def st2w : LayersList := ⟨[mkL 1 "A" false, mkL 2 "B" false], some 0⟩

/-- An empty collection with no viewer bound. -/
def st0nv : LayersList := ⟨[], none⟩

deriving instance DecidableEq for Except

/-! ### General lemmas -/

lemma ordersFrom_setOrders (l : List Layer) : ∀ i : Nat, ordersFrom i (setOrders i l) = true := by
  induction l with
  | nil => intro i; rfl
  | cons x xs ih =>
    intro i
    simp only [setOrders, ordersFrom, ih (i+1), Bool.and_true, decide_eq_true_eq]

lemma _reorder_fst (st : LayersList) :
    (st._reorder).1 = {st with list := setOrders 0 st.list} := by
  cases hv : st.viewer <;> simp [LayersList._reorder, hv]

lemma finishReorderOp_state (st1 : LayersList) :
    (st1.finishReorderOp).state.list = setOrders 0 st1.list := by
  simp [LayersList.finishReorderOp, _reorder_fst]

lemma reorder_orders (st : LayersList) (ord : List Ident) :
    (st.reorder ord).err = none → ordersFrom 0 (st.reorder ord).state.list = true := by
  unfold LayersList.reorder
  split
  · intro h; simp at h
  · intro _
    rw [finishReorderOp_state]
    exact ordersFrom_setOrders _ 0

lemma swap_orders (st : LayersList) (a b : Ident) :
    (st.swap a b).err = none → ordersFrom 0 (st.swap a b).state.list = true := by
  unfold LayersList.swap
  dsimp only
  repeat' split
  all_goals intro h
  all_goals
    first
    | (exact Option.noConfusion h)
    | (rw [finishReorderOp_state]; exact ordersFrom_setOrders _ 0)

lemma move_orders (st : LayersList) (i ins : Int) :
    (st._move_layers i ins).err = none → ordersFrom 0 (st._move_layers i ins).state.list = true := by
  unfold LayersList._move_layers
  dsimp only
  repeat' split
  all_goals intro h
  all_goals
    first
    | (exact Option.noConfusion h)
    | (exact reorder_orders st _ h)

/-! ### C1 — the stacking-order invariant -/

/-- C1, counterexample: a successful `append` onto an empty collection with
a bound viewer leaves the single element at position 0 with order `-1`
(`_add` writes `-len`, not `-index`), so the invariant "order of position
`i` is `-i` after any mutating operation" fails. -/
theorem c1_counterexample :
    ((LayersList.mk [] (some 0)).append (mkL 1 "A" false)).err = none ∧
    ordersFrom 0 ((LayersList.mk [] (some 0)).append (mkL 1 "A" false)).state.list = false := by
  decide

/-- C1, amended: after any single mutating operation that emits the
`reorder` notification (`swap`, `reorder`, drag-move) returns successfully,
every element at position `i` has its order field equal to `-i`.  (After
`append`/`insert` the new element's order is `-(new length)`, not its
negated index, and `pop` does not recompute the survivors' orders, so the
original claim fails for those operations.) -/
theorem c1_amended_thm (st : LayersList) (a b : Ident) (ord : List Ident) (i ins : Int) :
    ((st.swap a b).err = none → ordersFrom 0 (st.swap a b).state.list = true) ∧
    ((st.reorder ord).err = none → ordersFrom 0 (st.reorder ord).state.list = true) ∧
    ((st._move_layers i ins).err = none → ordersFrom 0 (st._move_layers i ins).state.list = true) :=
  ⟨swap_orders st a b, reorder_orders st ord, move_orders st i ins⟩

/-- C1, witness: the amended theorem at a concrete two-element collection
for each of the three operations. -/
theorem c1_witness :
    ordersFrom 0 (st2w.swap (Ident.pos 0) (Ident.pos 1)).state.list = true ∧
    ordersFrom 0 (st2w.reorder [Ident.pos 1, Ident.pos 0]).state.list = true ∧
    ordersFrom 0 (st2w._move_layers 0 1).state.list = true :=
  ⟨(c1_amended_thm st2w (Ident.pos 0) (Ident.pos 1) [Ident.pos 1, Ident.pos 0] 0 1).1
     (by decide),
   (c1_amended_thm st2w (Ident.pos 0) (Ident.pos 1) [Ident.pos 1, Ident.pos 0] 0 1).2.1
     (by decide),
   (c1_amended_thm st2w (Ident.pos 0) (Ident.pos 1) [Ident.pos 1, Ident.pos 0] 0 1).2.2
     (by decide)⟩

/-! ### C2 / C3 — drag-move on concrete collections -/

/-- C2, counterexample: on `[A,B,C,D]` with nothing selected,
`_move_layers(index=0, insert=3)` does *not* yield `[B,C,D,A]`. -/
theorem c2_counterexample :
    (st4._move_layers 0 3).state.list.map Layer.name ≠ ["B", "C", "D", "A"] := by
  decide

/-- C2, amended: on `[A,B,C,D]` with nothing selected,
`_move_layers(index=0, insert=3)` succeeds and yields `[B,C,A,D]` — the
dragged element is inserted before the element originally at position 3
after offset correction (`insert=4` would be needed to obtain
`[B,C,D,A]`). -/
theorem c2_amended_thm :
    (st4._move_layers 0 3).state.list.map Layer.name = ["B", "C", "A", "D"] ∧
    (st4._move_layers 0 3).err = none := by
  decide

/-- C3, counterexample: on `[A,B,C,D,E]` with `B` and `D` selected and the
primary index pointing at `B`, `_move_layers(index=1, insert=4)` does *not*
yield `[A,C,E,B,D]`. -/
theorem c3_counterexample :
    (st5._move_layers 1 4).state.list.map Layer.name ≠ ["A", "C", "E", "B", "D"] := by
  decide

/-- C3, amended: on `[A,B,C,D,E]` with `B` and `D` selected and the primary
index pointing at `B`, `_move_layers(index=1, insert=4)` succeeds and
yields `[A,C,B,D,E]`: the selected elements are moved together, contiguous
and in their original relative order, in front of the element originally at
position 4, and the non-selected elements keep their relative order
(`insert=5` would be needed to obtain `[A,C,E,B,D]`). -/
theorem c3_amended_thm :
    (st5._move_layers 1 4).state.list.map Layer.name = ["A", "C", "B", "D", "E"] ∧
    (st5._move_layers 1 4).err = none := by
  decide

/-! ### C5 — operations with no viewer bound -/

/-- A two-element collection with no viewer bound. -/
def stnv2 : LayersList := ⟨[mkL 1 "A" false, mkL 2 "B" false], none⟩

/-- C5, failing input: with `viewer = None`, every public mutating
operation raises `AttributeError` — the add/remove/reorder callbacks
dereference `self.viewer._update_layer_selection` (or
`self.viewer._canvas`) unconditionally instead of no-opping, although the
constructor documents the viewer as optional and defaults it to `None`. -/
theorem c5_viewer_none_failure :
    (st0nv.append (mkL 7 "x" false)).err = some PyErr.attributeError ∧
    (stnv2.insert (Ident.pos 1) (mkL 7 "x" false)).err = some PyErr.attributeError ∧
    (stnv2.swap (Ident.pos 0) (Ident.pos 1)).err = some PyErr.attributeError ∧
    (stnv2.reorder [Ident.pos 1, Ident.pos 0]).err = some PyErr.attributeError ∧
    (stnv2._move_layers 0 1).err = some PyErr.attributeError := by
  decide

/-! ### C6 — lookup failure normalization -/

lemma nmAux_eq_none (s : String) (l : List Layer) (i : Nat)
    (h : ∀ x ∈ l, x.name ≠ s) : nmAux s none l i = none := by
  induction l generalizing i with
  | nil => rfl
  | cons x xs ih =>
    simp only [nmAux]
    rw [if_neg (h x (List.mem_cons_self x xs)), ih (i+1) (fun y hy => h y (List.mem_cons_of_mem x hy))]

/-- C6: on any collection of length at most 99 in which no element is named
`"nonexistent"`, both `collection["nonexistent"]` and `collection[99]` fail
with `KeyError` (the out-of-range `IndexError` is caught and normalized). -/
theorem c6_thm (st : LayersList) (hname : ∀ x ∈ st.list, x.name ≠ "nonexistent")
    (hlen : st.list.length ≤ 99) :
    st.getitem (Query.name "nonexistent") = .error .keyError ∧
    st.getitem (Query.pos 99) = .error .keyError := by
  constructor
  · simp only [LayersList.getitem, LayersList._name_match, Option.getD_none, List.drop_zero]
    rw [nmAux_eq_none _ _ _ hname]
  · simp only [LayersList.getitem, pyIdx]
    have h1 : ¬((0 : Int) ≤ 99 ∧ (99 : Int) < (st.list.length : Int)) := by
      push_neg
      intro _
      exact_mod_cast hlen
    rw [if_neg h1, if_neg (by omega)]

/-- C6, witness: the theorem at a concrete two-element collection. -/
theorem c6_witness :
    st2w.getitem (Query.name "nonexistent") = .error .keyError ∧
    st2w.getitem (Query.pos 99) = .error .keyError :=
  c6_thm st2w (by decide) (by decide)

/-! ### C10 — membership test with a layer object -/

/-- C10: the membership test `layer in collection` raises `TypeError` even
when the layer is present: `__getitem__` hands a non-int/str/slice query to
the Python list subscript, whose `TypeError` is not caught by
`__contains__` (it only catches `KeyError`). -/
theorem c10_thm (st : LayersList) (l : Layer) (_hmem : l ∈ st.list) :
    st.contains (Query.layer l) = .error .typeError := rfl

/-- C10, witness: the theorem on `[A,B,C,D]` with the layer `A`, which is
present. -/
theorem c10_witness : st4.contains (Query.layer (mkL 1 "A" false)) = .error .typeError :=
  c10_thm st4 (mkL 1 "A" false) (by decide)

/-! ### C8 — insert places at `p` but reports `p - 1` -/

lemma _add_eq (st : LayersList) (k : Nat) :
    st._add k =
      ({st with list := st.list.set k (st.addItemOf k)},
       match st.viewer with
       | none => some PyErr.attributeError
       | some _ => none) := by
  cases hv : st.viewer <;> simp [LayersList._add, hv]

lemma getD_append_len (l1 l2 : List Layer) (x d : Layer) :
    (l1 ++ x :: l2).getD l1.length d = x := by
  induction l1 with
  | nil => rfl
  | cons a t ih =>
    simp only [List.cons_append, List.length_cons, List.getD_cons_succ]
    exact ih

lemma set_append_len (l1 l2 : List Layer) (x y : Layer) :
    (l1 ++ x :: l2).set l1.length y = l1 ++ y :: l2 := by
  induction l1 with
  | nil => rfl
  | cons a t ih =>
    simp only [List.cons_append, List.length_cons, List.set_cons_succ]
    rw [ih]

lemma getD_append_at (l1 l2 : List Layer) (x d : Layer) (p : Nat) (hp : l1.length = p) :
    (l1 ++ x :: l2).getD p d = x := by
  subst hp; exact getD_append_len l1 l2 x d

lemma set_append_at (l1 l2 : List Layer) (x y : Layer) (p : Nat) (hp : l1.length = p) :
    (l1 ++ x :: l2).set p y = l1 ++ y :: l2 := by
  subst hp; exact set_append_len l1 l2 x y

/-- C8: when the identifier resolves to a valid position `p`, `insert`
places the new layer at position `p` (the identity sequence becomes
`take p ++ [new] ++ drop p`) and emits exactly one `add_item` notification
whose reported index is `p - 1`, one less than the true inserted slot. -/
theorem c8_thm (st : LayersList) (ident : Ident) (layer : Layer) (p : Nat)
    (hres : st._to_index ident = .ok (p : Int))
    (hp : p ≤ st.list.length) :
    (st.insert ident layer).state.list.map Layer.id
      = (st.list.map Layer.id).take p ++ layer.id :: (st.list.map Layer.id).drop p ∧
    (st.insert ident layer).events = [Ev.add layer.id ((p : Int) - 1)] := by
  have hk : pyInsertPos st.list.length ((p : Nat) : Int) = p := by
    unfold pyInsertPos
    rw [if_neg (by omega)]
    omega
  have htl : (st.list.take p).length = p := by
    rw [List.length_take]
    omega
  have hins : st.insert ident layer
      = LayersList.finishAddOp {st with list := st.list.take p ++ layer :: st.list.drop p}
          p layer.id ((p : Int) - 1) := by
    unfold LayersList.insert
    rw [hres]
    dsimp only
    unfold pyInsert
    rw [hk]
  rw [hins]
  unfold LayersList.finishAddOp
  rw [_add_eq]
  dsimp only
  unfold LayersList.addItemOf
  dsimp only
  refine ⟨?_, rfl⟩
  rw [getD_append_at _ _ _ _ _ htl, set_append_at _ _ _ _ _ htl]
  simp [List.map_take, List.map_drop]

/-- C8, witness: inserting before position 1 of a two-element collection. -/
theorem c8_witness :
    (st2w.insert (Ident.pos 1) (mkL 9 "N" false)).state.list.map Layer.id
      = (st2w.list.map Layer.id).take 1 ++ 9 :: (st2w.list.map Layer.id).drop 1 ∧
    (st2w.insert (Ident.pos 1) (mkL 9 "N" false)).events = [Ev.add 9 ((1 : Int) - 1)] :=
  c8_thm st2w (Ident.pos 1) (mkL 9 "N" false) 1 rfl (by decide)

/-! ### C4 — reorder validation: duplicates, omissions, no partial mutation -/

lemma rcGoI_pos_cons (st : LayersList) (h : Int) (t : List Int) (expected : List Int) :
    st.rcGoI ((h :: t).map Ident.pos) expected
      = (if h ∈ expected then
          match st.list.get? h.toNat with
          | some x => (st.rcGoI (t.map Ident.pos) (expected.erase h)).map (fun r => x :: r)
          | none => .error .indexError
        else .error (.duplicateIndex h)) := rfl

lemma rcGoI_dup_of_gone (st : LayersList) :
    ∀ (ord expected : List Int),
      (∀ o ∈ ord, 0 ≤ o ∧ o.toNat < st.list.length) →
      (∃ o ∈ ord, o ∉ expected) →
      ∃ k, st.rcGoI (ord.map Ident.pos) expected = .error (.duplicateIndex k) := by
  intro ord
  induction ord with
  | nil => intro expected _ hw; simp at hw
  | cons h t ih =>
    intro expected hb hw
    rw [rcGoI_pos_cons]
    by_cases hh : h ∈ expected
    · rw [if_pos hh]
      have hlt : h.toNat < st.list.length := (hb h (List.mem_cons_self h t)).2
      rw [List.get?_eq_getElem?, List.getElem?_eq_getElem hlt]
      obtain ⟨o, ho, hno⟩ := hw
      have hot : o ∈ t := by
        rcases List.mem_cons.1 ho with rfl | hot
        · exact absurd hh hno
        · exact hot
      obtain ⟨k, hk⟩ := ih (expected.erase h)
        (fun o' ho' => hb o' (List.mem_cons_of_mem h ho'))
        ⟨o, hot, fun hmem => hno (List.erase_subset _ _ hmem)⟩
      exact ⟨k, by rw [hk]; rfl⟩
    · exact ⟨h, by rw [if_neg hh]⟩

lemma rcGoI_dup (st : LayersList) :
    ∀ (ord expected : List Int),
      expected.Nodup →
      (∀ o ∈ ord, 0 ≤ o ∧ o.toNat < st.list.length) →
      (∀ o ∈ ord, o ∈ expected) →
      ¬ ord.Nodup →
      ∃ k, st.rcGoI (ord.map Ident.pos) expected = .error (.duplicateIndex k) := by
  intro ord
  induction ord with
  | nil => intro expected _ _ _ hnd; exact absurd List.nodup_nil hnd
  | cons h t ih =>
    intro expected hexp hb hmem hnd
    have hh : h ∈ expected := hmem h (List.mem_cons_self h t)
    have hlt : h.toNat < st.list.length := (hb h (List.mem_cons_self h t)).2
    rw [rcGoI_pos_cons, if_pos hh, List.get?_eq_getElem?, List.getElem?_eq_getElem hlt]
    by_cases hht : h ∈ t
    · obtain ⟨k, hk⟩ := rcGoI_dup_of_gone st t (expected.erase h)
        (fun o' ho' => hb o' (List.mem_cons_of_mem h ho'))
        ⟨h, hht, hexp.not_mem_erase⟩
      exact ⟨k, by rw [hk]; rfl⟩
    · have hndt : ¬ t.Nodup := by
        intro hcon
        exact hnd (List.nodup_cons.2 ⟨hht, hcon⟩)
      obtain ⟨k, hk⟩ := ih (expected.erase h) (hexp.erase h)
        (fun o' ho' => hb o' (List.mem_cons_of_mem h ho'))
        (fun o' ho' => (List.mem_erase_of_ne (ne_of_mem_of_not_mem ho' hht)).2
          (hmem o' (List.mem_cons_of_mem h ho')))
        hndt
      exact ⟨k, by rw [hk]; rfl⟩

lemma rcGoI_nodup_run (st : LayersList) :
    ∀ (ord expected : List Int),
      expected.Nodup → ord.Nodup →
      (∀ o ∈ ord, o ∈ expected) →
      (∀ o ∈ expected, 0 ≤ o ∧ o.toNat < st.list.length) →
      st.rcGoI (ord.map Ident.pos) expected
        = if expected.filter (fun x => decide (x ∉ ord)) = []
          then .ok (ord.map (fun o => st.list.getD o.toNat default))
          else .error (.missingIndices (expected.filter (fun x => decide (x ∉ ord)))) := by
  intro ord
  induction ord with
  | nil =>
    intro expected _ _ _ _
    have hfe : expected.filter (fun x => decide (x ∉ ([] : List Int))) = expected := by
      simp
    rw [hfe]
    by_cases he : expected = []
    · subst he; rfl
    · show (if expected = [] then _ else _) = _
      rw [if_neg he, if_neg he]
  | cons h t ih =>
    intro expected hexp hnd hmem hb
    have hh : h ∈ expected := hmem h (List.mem_cons_self h t)
    have hlt : h.toNat < st.list.length := (hb h hh).2
    have hht : h ∉ t := (List.nodup_cons.1 hnd).1
    rw [rcGoI_pos_cons, if_pos hh, List.get?_eq_getElem?, List.getElem?_eq_getElem hlt]
    have hfilter : (expected.erase h).filter (fun x => decide (x ∉ t))
        = expected.filter (fun x => decide (x ∉ h :: t)) := by
      rw [hexp.erase_eq_filter h, List.filter_filter]
      apply List.filter_congr
      intro x _
      by_cases hxh : x = h
      · subst hxh
        simp
      · simp [hxh]
    have ihh := ih (expected.erase h) (hexp.erase h) (List.nodup_cons.1 hnd).2
      (fun o' ho' => (List.mem_erase_of_ne (ne_of_mem_of_not_mem ho' hht)).2
        (hmem o' (List.mem_cons_of_mem h ho')))
      (fun o' ho' => hb o' (List.erase_subset _ _ ho'))
    rw [ihh, hfilter]
    by_cases hc : expected.filter (fun x => decide (x ∉ h :: t)) = []
    · rw [if_pos hc, if_pos hc]
      show Except.ok _ = _
      rw [List.map_cons, List.getD_eq_getElem st.list default hlt]
    · rw [if_neg hc, if_neg hc]
      rfl

/-- The positions of `{0, …, n-1}` omitted by the position list `ord`, in
ascending order: this is exactly the payload of the `MissingIndices`
failure. -/
def omittedOf (n : Nat) (ord : List Nat) : List Int :=
  ((List.range n).map Int.ofNat).filter (fun x => decide (x ∉ ord.map Int.ofNat))

/-- Recognizer for the duplicate-index failure. -/
def isDupErr : Option PyErr → Bool
  | some (PyErr.duplicateIndex _) => true
  | _ => false

lemma rangeI_nodup (n : Nat) : ((List.range n).map Int.ofNat).Nodup :=
  (List.nodup_range n).map_on (fun _ _ _ _ h => Int.ofNat_inj.1 h)

lemma rangeI_bounds (n : Nat) :
    ∀ o ∈ (List.range n).map Int.ofNat, 0 ≤ o ∧ o.toNat < n := by
  intro o ho
  obtain ⟨m, hm, rfl⟩ := List.mem_map.1 ho
  exact ⟨Int.ofNat_nonneg m, by simpa using List.mem_range.1 hm⟩

lemma mem_rangeI (n : Nat) (m : Nat) (hm : m < n) :
    (Int.ofNat m) ∈ (List.range n).map Int.ofNat :=
  List.mem_map.2 ⟨m, List.mem_range.2 hm, rfl⟩

/-- C4: on any collection, calling `reorder` with a position list that
repeats a position fails with a duplicate-index `ValueError` and leaves the
state (and the event stream) unchanged, and calling it with a list of
distinct valid positions that omits one or more positions fails with a
`ValueError` listing exactly the omitted positions (in ascending order) and
also leaves the state unchanged: the generator feeding the slice assignment
is fully validated before `_list` is mutated. -/
theorem c4_thm (st : LayersList) (ord : List Nat)
    (hb : ∀ o ∈ ord, o < st.list.length) :
    (¬ ord.Nodup →
      (st.reorder ((ord.map Int.ofNat).map Ident.pos)).state = st ∧
      (st.reorder ((ord.map Int.ofNat).map Ident.pos)).events = [] ∧
      isDupErr (st.reorder ((ord.map Int.ofNat).map Ident.pos)).err = true) ∧
    (ord.Nodup →
      (∃ m, m < st.list.length ∧ m ∉ ord) →
      st.reorder ((ord.map Int.ofNat).map Ident.pos)
        = ⟨st, [], some (.missingIndices (omittedOf st.list.length ord))⟩) := by
  have hbI : ∀ o ∈ ord.map Int.ofNat, 0 ≤ o ∧ o.toNat < st.list.length := by
    intro o ho
    obtain ⟨m, hm, rfl⟩ := List.mem_map.1 ho
    exact ⟨Int.ofNat_nonneg m, by simpa using hb m hm⟩
  have hmemI : ∀ o ∈ ord.map Int.ofNat, o ∈ (List.range st.list.length).map Int.ofNat := by
    intro o ho
    obtain ⟨m, hm, rfl⟩ := List.mem_map.1 ho
    exact mem_rangeI _ m (hb m hm)
  constructor
  · intro hnd
    have hndI : ¬ (ord.map Int.ofNat).Nodup := fun hc => hnd (hc.of_map Int.ofNat)
    obtain ⟨k, hk⟩ := rcGoI_dup st (ord.map Int.ofNat)
      ((List.range st.list.length).map Int.ofNat)
      (rangeI_nodup st.list.length) hbI hmemI hndI
    unfold LayersList.reorder
    rw [hk]
    exact ⟨rfl, rfl, rfl⟩
  · intro hnd hmiss
    have hndI : (ord.map Int.ofNat).Nodup :=
      hnd.map_on (fun _ _ _ _ h => Int.ofNat_inj.1 h)
    have hne : ((List.range st.list.length).map Int.ofNat).filter
        (fun x => decide (x ∉ ord.map Int.ofNat)) ≠ [] := by
      obtain ⟨m, hm, hno⟩ := hmiss
      apply List.ne_nil_of_mem (a := Int.ofNat m)
      rw [List.mem_filter]
      refine ⟨mem_rangeI _ m hm, ?_⟩
      rw [decide_eq_true_iff]
      intro hc
      obtain ⟨m', hm', he⟩ := List.mem_map.1 hc
      exact hno (Int.ofNat_inj.1 he ▸ hm')
    have hrun := rcGoI_nodup_run st (ord.map Int.ofNat)
      ((List.range st.list.length).map Int.ofNat)
      (rangeI_nodup st.list.length) hndI hmemI
      (rangeI_bounds st.list.length)
    rw [if_neg hne] at hrun
    unfold LayersList.reorder
    rw [hrun]
    rfl

/-- C4, witness: on `[A, B]`, reordering with `[0, 0]` fails with a
duplicate-index error and reordering with `[0]` fails listing exactly the
omitted position `1`; the state is unchanged in both cases. -/
theorem c4_witness :
    ((st2w.reorder (([0, 0].map Int.ofNat).map Ident.pos)).state = st2w ∧
      (st2w.reorder (([0, 0].map Int.ofNat).map Ident.pos)).events = [] ∧
      isDupErr (st2w.reorder (([0, 0].map Int.ofNat).map Ident.pos)).err = true) ∧
    st2w.reorder (([0].map Int.ofNat).map Ident.pos)
      = ⟨st2w, [], some (.missingIndices (omittedOf 2 [0]))⟩ :=
  ⟨(c4_thm st2w [0, 0] (by decide)).1 (by decide),
   (c4_thm st2w [0] (by decide)).2 (by decide) ⟨1, by decide, by decide⟩⟩

/-! ### C9 — reorder round trip -/

/-- Apply a position permutation the way `_reordered_list` does: element `i`
of the result is the element at position `P i` of the input. -/
def permApply (l : List Layer) (P : List Nat) : List Layer :=
  P.map (fun o => l.getD o default)

/-- The inverse permutation: position `i` of the result is the position at
which `P` mentions `i`. -/
def invPerm (P : List Nat) : List Nat :=
  (List.range P.length).map (fun i => P.indexOf i)

lemma setOrders_length (l : List Layer) : ∀ i, (setOrders i l).length = l.length := by
  induction l with
  | nil => intro i; rfl
  | cons x xs ih => intro i; simp [setOrders, ih (i+1)]

lemma setOrders_map_id (l : List Layer) : ∀ i, (setOrders i l).map Layer.id = l.map Layer.id := by
  induction l with
  | nil => intro i; rfl
  | cons x xs ih => intro i; simp [setOrders, ih (i+1)]

lemma finishReorderOp_viewer (st1 : LayersList) :
    (st1.finishReorderOp).state.viewer = st1.viewer := by
  simp [LayersList.finishReorderOp, _reorder_fst]

lemma finishReorderOp_err_some (st1 : LayersList) (v : Nat) (hv : st1.viewer = some v) :
    (st1.finishReorderOp).err = none := by
  simp [LayersList.finishReorderOp, LayersList._reorder, hv]

lemma perm_contains (P : List Nat) (n : Nat) (hlen : P.length = n) (hnd : P.Nodup)
    (hb : ∀ o ∈ P, o < n) : ∀ m, m < n → m ∈ P := by
  have hsub : P.toFinset ⊆ Finset.range n := by
    intro x hx
    exact Finset.mem_range.2 (hb x (List.mem_toFinset.1 hx))
  have hcard : (Finset.range n).card ≤ P.toFinset.card := by
    rw [Finset.card_range, List.toFinset_card_of_nodup hnd, hlen]
  have heq := Finset.eq_of_subset_of_card_le hsub hcard
  intro m hm
  exact List.mem_toFinset.1 (heq.symm ▸ Finset.mem_range.2 hm)

lemma filter_missing_nil (P : List Nat) (n : Nat) (hlen : P.length = n) (hnd : P.Nodup)
    (hb : ∀ o ∈ P, o < n) :
    ((List.range n).map Int.ofNat).filter (fun x => decide (x ∉ P.map Int.ofNat)) = [] := by
  rw [List.filter_eq_nil_iff]
  intro a ha
  obtain ⟨m, hm, rfl⟩ := List.mem_map.1 ha
  have hmem : m ∈ P := perm_contains P n hlen hnd hb m (List.mem_range.1 hm)
  have hmm : Int.ofNat m ∈ P.map Int.ofNat := List.mem_map.2 ⟨m, hmem, rfl⟩
  rw [decide_eq_true_iff]
  exact fun hc => hc hmm

lemma reorder_perm_eq (st : LayersList) (P : List Nat)
    (hlen : P.length = st.list.length) (hnd : P.Nodup)
    (hb : ∀ o ∈ P, o < st.list.length) :
    st.reorder ((P.map Int.ofNat).map Ident.pos)
      = LayersList.finishReorderOp {st with list := permApply st.list P} := by
  have hbI : ∀ o ∈ P.map Int.ofNat, o ∈ (List.range st.list.length).map Int.ofNat := by
    intro o ho
    obtain ⟨m, hm, rfl⟩ := List.mem_map.1 ho
    exact mem_rangeI _ m (hb m hm)
  have hndI : (P.map Int.ofNat).Nodup :=
    hnd.map_on (fun _ _ _ _ h => Int.ofNat_inj.1 h)
  have hrun := rcGoI_nodup_run st (P.map Int.ofNat)
    ((List.range st.list.length).map Int.ofNat)
    (rangeI_nodup st.list.length) hndI hbI (rangeI_bounds st.list.length)
  rw [if_pos (filter_missing_nil P st.list.length hlen hnd hb)] at hrun
  unfold LayersList.reorder
  rw [hrun]
  show LayersList.finishReorderOp _ = _
  congr 1
  simp only [LayersList.mk.injEq, and_true]
  unfold permApply
  rw [List.map_map]
  apply List.map_congr_left
  intro o _
  simp

lemma map_range_getD (J : List Nat) :
    (List.range J.length).map (fun i => J.getD i 0) = J := by
  apply List.ext_getElem
  · simp
  · intro i h1 h2
    simp only [List.getElem_map, List.getElem_range]
    rw [List.getD_eq_getElem J 0 h2]

lemma ids_permApply (l : List Layer) (P : List Nat) (hb : ∀ o ∈ P, o < l.length) :
    (permApply l P).map Layer.id = P.map (fun o => (l.map Layer.id).getD o 0) := by
  unfold permApply
  rw [List.map_map]
  apply List.map_congr_left
  intro o ho
  have h1 : o < l.length := hb o ho
  have h2 : o < (l.map Layer.id).length := by simpa using h1
  simp only [Function.comp_apply]
  rw [List.getD_eq_getElem _ _ h1, List.getD_eq_getElem _ _ h2, List.getElem_map]

lemma invPerm_nodup (P : List Nat) (hnd : P.Nodup) (hb : ∀ o ∈ P, o < P.length) :
    (invPerm P).Nodup := by
  apply (List.nodup_range P.length).map_on
  intro x hx y hy h
  have hxP : x ∈ P := perm_contains P P.length rfl hnd hb x (List.mem_range.1 hx)
  have hyP : y ∈ P := perm_contains P P.length rfl hnd hb y (List.mem_range.1 hy)
  have hx2 := List.getElem_indexOf (List.indexOf_lt_length.2 hxP)
  have hy2 := List.getElem_indexOf (List.indexOf_lt_length.2 hyP)
  rw [← hx2, ← hy2]
  congr 1

lemma invPerm_bounds (P : List Nat) (hnd : P.Nodup) (hb : ∀ o ∈ P, o < P.length) :
    ∀ o ∈ invPerm P, o < P.length := by
  intro o ho
  obtain ⟨i, hi, rfl⟩ := List.mem_map.1 ho
  exact List.indexOf_lt_length.2
    (perm_contains P P.length rfl hnd hb i (List.mem_range.1 hi))

/-- C9: applying `reorder` with a permutation `P` and then with the inverse
permutation of `P` leaves both calls error-free (with a viewer bound) and
restores the collection's original element order. -/
theorem c9_thm (st : LayersList) (P : List Nat) (v : Nat)
    (hv : st.viewer = some v)
    (hlen : P.length = st.list.length) (hnd : P.Nodup)
    (hb : ∀ o ∈ P, o < st.list.length) :
    (st.reorder ((P.map Int.ofNat).map Ident.pos)).err = none ∧
    ((st.reorder ((P.map Int.ofNat).map Ident.pos)).state.reorder
        (((invPerm P).map Int.ofNat).map Ident.pos)).err = none ∧
    ((st.reorder ((P.map Int.ofNat).map Ident.pos)).state.reorder
        (((invPerm P).map Int.ofNat).map Ident.pos)).state.list.map Layer.id
      = st.list.map Layer.id := by
  have hb' : ∀ o ∈ P, o < P.length := fun o ho => hlen ▸ hb o ho
  have he1 := reorder_perm_eq st P hlen hnd hb
  set st1 := (st.reorder ((P.map Int.ofNat).map Ident.pos)).state with hst1
  have hst1l : st1.list = setOrders 0 (permApply st.list P) := by
    rw [hst1, he1, finishReorderOp_state]
  have hst1v : st1.viewer = some v := by
    rw [hst1, he1]
    show (LayersList.finishReorderOp _).state.viewer = _
    rw [finishReorderOp_viewer]
    exact hv
  have hst1len : st1.list.length = P.length := by
    rw [hst1l, setOrders_length]
    simp [permApply]
  have hlen2 : (invPerm P).length = st1.list.length := by
    rw [hst1len]
    simp [invPerm]
  have hnd2 : (invPerm P).Nodup := invPerm_nodup P hnd hb'
  have hb2 : ∀ o ∈ invPerm P, o < st1.list.length := by
    rw [hst1len]
    exact invPerm_bounds P hnd hb'
  have he2 := reorder_perm_eq st1 (invPerm P) hlen2 hnd2 hb2
  refine ⟨?_, ?_, ?_⟩
  · rw [he1]
    exact finishReorderOp_err_some _ v hv
  · rw [he2]
    exact finishReorderOp_err_some _ v hst1v
  · rw [he2, finishReorderOp_state, setOrders_map_id]
    have hids1 : st1.list.map Layer.id
        = P.map (fun o => (st.list.map Layer.id).getD o 0) := by
      rw [hst1l, setOrders_map_id]
      exact ids_permApply st.list P hb
    rw [ids_permApply st1.list (invPerm P) hb2, hids1]
    unfold invPerm
    rw [List.map_map]
    have hstep : ∀ i ∈ List.range P.length,
        ((fun o => (P.map (fun o2 => (st.list.map Layer.id).getD o2 0)).getD o 0) ∘
          fun i => P.indexOf i) i
        = (st.list.map Layer.id).getD i 0 := by
      intro i hi
      have hiP : i ∈ P := perm_contains P P.length rfl hnd hb' i (List.mem_range.1 hi)
      have hidx : P.indexOf i < P.length := List.indexOf_lt_length.2 hiP
      have hidx2 : P.indexOf i < (P.map (fun o2 => (st.list.map Layer.id).getD o2 0)).length := by
        simpa using hidx
      simp only [Function.comp_apply]
      rw [List.getD_eq_getElem _ _ hidx2, List.getElem_map]
      rw [List.getElem_indexOf hidx]
    rw [List.map_congr_left hstep]
    have hrange : P.length = (st.list.map Layer.id).length := by
      rw [hlen]
      simp
    rw [hrange, map_range_getD]

/-- C9, witness: the theorem on `[A, B]` with the transposition `[1, 0]`. -/
theorem c9_witness :
    (st2w.reorder ((([1, 0] : List Nat).map Int.ofNat).map Ident.pos)).err = none ∧
    ((st2w.reorder ((([1, 0] : List Nat).map Int.ofNat).map Ident.pos)).state.reorder
        (((invPerm [1, 0]).map Int.ofNat).map Ident.pos)).err = none ∧
    ((st2w.reorder ((([1, 0] : List Nat).map Int.ofNat).map Ident.pos)).state.reorder
        (((invPerm [1, 0]).map Int.ofNat).map Ident.pos)).state.list.map Layer.id
      = st2w.list.map Layer.id :=
  c9_thm st2w [1, 0] 0 rfl (by decide) (by decide) (by decide)

/-! ### C7 — name coercion: uniqueness and idempotence

The `while` loop of `_coerce_name` terminates because the trailing counter
strictly increases, so the iterates of `inc_name_count` are pairwise
distinct and a finite collection can only match finitely many of them.  The
lemmas below establish the arithmetic of the counter suffix, the
distinctness of the iterates, and the resulting pigeonhole bound. -/

lemma digitChar_isDigit : ∀ d, d < 10 → (digitChar d).isDigit = true := by decide

lemma charVal_digitChar : ∀ d, d < 10 → charVal (digitChar d).toNat = d := by decide

lemma digitsRevAux_lt : ∀ (fuel n : Nat), ∀ d ∈ digitsRevAux fuel n, d < 10 := by
  intro fuel
  induction fuel with
  | zero => intro n d hd; simp [digitsRevAux] at hd
  | succ f ih =>
    intro n d hd
    by_cases h0 : n = 0
    · simp [digitsRevAux, h0] at hd
    · rw [digitsRevAux, if_neg h0] at hd
      rcases List.mem_cons.1 hd with rfl | hd'
      · exact Nat.mod_lt n (by omega)
      · exact ih (n / 10) d hd'

lemma revVal_digitsRevAux : ∀ (fuel n : Nat), n ≤ fuel → revVal (digitsRevAux fuel n) = n := by
  intro fuel
  induction fuel with
  | zero => intro n hn; interval_cases n; rfl
  | succ f ih =>
    intro n hn
    by_cases h0 : n = 0
    · simp [digitsRevAux, h0, revVal]
    · rw [digitsRevAux, if_neg h0, revVal, ih (n / 10) (by omega)]
      omega

lemma digitsRevAux_ne_nil (fuel n : Nat) (h0 : n ≠ 0) (hf : n ≤ fuel) :
    digitsRevAux fuel n ≠ [] := by
  cases fuel with
  | zero => omega
  | succ f => rw [digitsRevAux, if_neg h0]; simp

lemma natToChars_digits (n : Nat) : ∀ c ∈ natToChars n, c.isDigit = true := by
  intro c hc
  unfold natToChars at hc
  rw [List.mem_reverse] at hc
  obtain ⟨d, hd, rfl⟩ := List.mem_map.1 hc
  exact digitChar_isDigit d (digitsRevAux_lt n n d hd)

lemma natToChars_ne_nil (n : Nat) (h : n ≠ 0) : natToChars n ≠ [] := by
  unfold natToChars
  intro hc
  rw [List.reverse_eq_nil_iff, List.map_eq_nil_iff] at hc
  exact digitsRevAux_ne_nil n n h (le_refl n) hc

lemma revDigitsVal_rev_natToChars (n : Nat) : revDigitsVal ((natToChars n).reverse) = n := by
  unfold natToChars revDigitsVal
  rw [List.reverse_reverse, List.map_map]
  have hcongr : (digitsRevAux n n).map ((fun c => charVal c.toNat) ∘ digitChar)
      = (digitsRevAux n n).map id := by
    apply List.map_congr_left
    intro d hd
    exact charVal_digitChar d (digitsRevAux_lt n n d hd)
  rw [hcongr, List.map_id]
  exact revVal_digitsRevAux n n (le_refl n)

lemma takeWhile_all_append (p : Char → Bool) (ds : List Char) (x : Char) (r : List Char)
    (hds : ∀ c ∈ ds, p c = true) (hx : p x = false) :
    (ds ++ x :: r).takeWhile p = ds := by
  induction ds with
  | nil => simp [List.takeWhile, hx]
  | cons c t ih =>
    rw [List.cons_append, List.takeWhile_cons, hds c (List.mem_cons_self c t)]
    rw [ih (fun c' hc' => hds c' (List.mem_cons_of_mem c hc'))]
    rw [if_pos rfl]

lemma dropWhile_all_append (p : Char → Bool) (ds : List Char) (x : Char) (r : List Char)
    (hds : ∀ c ∈ ds, p c = true) (hx : p x = false) :
    (ds ++ x :: r).dropWhile p = x :: r := by
  induction ds with
  | nil => simp [List.dropWhile, hx]
  | cons c t ih =>
    rw [List.cons_append, List.dropWhile_cons, hds c (List.mem_cons_self c t)]
    rw [if_pos rfl]
    exact ih (fun c' hc' => hds c' (List.mem_cons_of_mem c hc'))

lemma splitCounter_render (b : List Char) (k : Nat) (hk : k ≠ 0) :
    splitCounter (b ++ counterSuffix k) = some (b, k) := by
  unfold splitCounter counterSuffix
  have hrev : (b ++ (' ' :: '[' :: (natToChars k ++ [']']))).reverse
      = ']' :: ((natToChars k).reverse ++ '[' :: ' ' :: b.reverse) := by
    simp [List.reverse_append]
  rw [hrev]
  have htake := takeWhile_all_append Char.isDigit (natToChars k).reverse '['
    (' ' :: b.reverse) (fun c hc => natToChars_digits k c (List.mem_reverse.1 hc)) (by decide)
  have hdrop := dropWhile_all_append Char.isDigit (natToChars k).reverse '['
    (' ' :: b.reverse) (fun c hc => natToChars_digits k c (List.mem_reverse.1 hc)) (by decide)
  rw [splitCounterRev, if_pos rfl, hdrop]
  have hne : (natToChars k).reverse ≠ [] := by
    intro hc
    exact natToChars_ne_nil k hk (List.reverse_eq_nil_iff.1 hc)
  rw [htake]  -- also rewrites inside the nested ite
  show (if ('[' : Char) = '[' ∧ (' ' : Char) = ' ' then
          if (natToChars k).reverse = [] then none
          else some (b.reverse.reverse, revDigitsVal (natToChars k).reverse)
        else none) = some (b, k)
  rw [if_pos ⟨rfl, rfl⟩, if_neg hne, List.reverse_reverse, revDigitsVal_rev_natToChars]

/-- Base part of a name (the whole name when it has no counter). -/
def baseOf (s : String) : List Char :=
  match splitCounter s.data with
  | none => s.data
  | some (b, _) => b

/-- Counter part of a name (`0` when it has no counter). -/
def cntOf (s : String) : Nat :=
  match splitCounter s.data with
  | none => 0
  | some (_, c) => c

lemma splitCounter_inc (s : String) :
    splitCounter (inc_name_count s).data = some (baseOf s, cntOf s + 1) := by
  unfold inc_name_count
  cases h : splitCounter s.data with
  | none =>
    have hb : baseOf s = s.data := by unfold baseOf; rw [h]
    have hc : cntOf s = 0 := by unfold cntOf; rw [h]
    rw [hb, hc]
    exact splitCounter_render s.data 1 one_ne_zero
  | some bc =>
    obtain ⟨b, c⟩ := bc
    have hb : baseOf s = b := by unfold baseOf; rw [h]
    have hc : cntOf s = c := by unfold cntOf; rw [h]
    rw [hb, hc]
    exact splitCounter_render b (c+1) (Nat.succ_ne_zero c)

lemma baseOf_inc (s : String) : baseOf (inc_name_count s) = baseOf s := by
  conv_lhs => unfold baseOf
  rw [splitCounter_inc s]

lemma cntOf_inc (s : String) : cntOf (inc_name_count s) = cntOf s + 1 := by
  conv_lhs => unfold cntOf
  rw [splitCounter_inc s]

/-- Iterates of `inc_name_count`: the successive candidate names tried by
the coercion loop. -/
def itN : Nat → String → String
  | 0, s => s
  | j+1, s => itN j (inc_name_count s)

lemma splitCounter_itN (s : String) :
    ∀ j, splitCounter (itN (j+1) s).data = some (baseOf s, cntOf s + (j+1)) := by
  intro j
  induction j generalizing s with
  | zero => exact splitCounter_inc s
  | succ j' ih =>
    show splitCounter (itN (j'+1) (inc_name_count s)).data = _
    rw [ih (inc_name_count s), baseOf_inc, cntOf_inc]
    congr 2
    omega

lemma itN_inj (s : String) : ∀ i j, i < j → itN i s ≠ itN j s := by
  intro i j hij heq
  have hdata : splitCounter (itN i s).data = splitCounter (itN j s).data := by rw [heq]
  cases i with
  | zero =>
    cases j with
    | zero => omega
    | succ j' =>
      rw [splitCounter_itN s j'] at hdata
      cases h : splitCounter s.data with
      | none =>
        rw [show itN 0 s = s from rfl, h] at hdata
        exact Option.noConfusion hdata
      | some bc =>
        obtain ⟨b, c⟩ := bc
        have hc : cntOf s = c := by unfold cntOf; rw [h]
        rw [show itN 0 s = s from rfl, h] at hdata
        simp only [Option.some.injEq, Prod.mk.injEq] at hdata
        omega
  | succ i' =>
    cases j with
    | zero => omega
    | succ j' =>
      rw [splitCounter_itN s i', splitCounter_itN s j'] at hdata
      simp only [Option.some.injEq, Prod.mk.injEq] at hdata
      omega

lemma itN_list_nodup (s : String) (m : Nat) :
    ((List.range m).map (fun j => itN j s)).Nodup := by
  apply (List.nodup_range m).map_on
  intro x _ y _ h
  by_contra hne
  rcases Nat.lt_or_ge x y with hlt | hge
  · exact itN_inj s x y hlt h
  · exact itN_inj s y x (by omega) h.symm

/-- Whether `_name_match` skips a layer for the given `ignore` argument. -/
def isIgn (ig : Option Layer) (x : Layer) : Bool :=
  match ig with
  | some g => decide (x.id = g.id)
  | none => false

/-- Names of the layers `_name_match` can actually match against. -/
def otherNames (st : LayersList) (ig : Option Layer) : List String :=
  (st.list.filter (fun x => ! isIgn ig x)).map Layer.name

lemma _name_match_eq_nmAux (st : LayersList) (name : String) (ig : Option Layer) :
    st._name_match name none none ig = nmAux name ig st.list 0 := by
  unfold LayersList._name_match
  simp

lemma nmAux_some_mem (nm : String) (ig : Option Layer) :
    ∀ (l : List Layer) (i : Nat) (r : Nat × Layer),
      nmAux nm ig l i = some r → nm ∈ (l.filter (fun x => ! isIgn ig x)).map Layer.name := by
  intro l
  induction l with
  | nil => intro i r h; exact Option.noConfusion h
  | cons x xs ih =>
    intro i r h
    cases ig with
    | some g =>
      simp only [nmAux] at h
      by_cases hid : x.id = g.id
      · rw [if_pos hid] at h
        have hmem := ih (i+1) r h
        have hfx : (! isIgn (some g) x) = false := by simp [isIgn, hid]
        rw [List.filter_cons, hfx, if_neg Bool.false_ne_true]
        exact hmem
      · rw [if_neg hid] at h
        have hfx : (! isIgn (some g) x) = true := by simp [isIgn, hid]
        by_cases hnm : x.name = nm
        · rw [List.filter_cons, hfx, if_pos rfl, List.map_cons, hnm]
          exact List.mem_cons_self _ _
        · rw [if_neg hnm] at h
          have hmem := ih (i+1) r h
          rw [List.filter_cons, hfx, if_pos rfl, List.map_cons]
          exact List.mem_cons_of_mem _ hmem
    | none =>
      simp only [nmAux] at h
      have hfx : (! isIgn (none : Option Layer) x) = true := by simp [isIgn]
      by_cases hnm : x.name = nm
      · rw [List.filter_cons, hfx, if_pos rfl, List.map_cons, hnm]
        exact List.mem_cons_self _ _
      · rw [if_neg hnm] at h
        have hmem := ih (i+1) r h
        rw [List.filter_cons, hfx, if_pos rfl, List.map_cons]
        exact List.mem_cons_of_mem _ hmem

lemma coerce_go_cases (st : LayersList) (ig : Option Layer) :
    ∀ (fuel : Nat) (name : String),
      st._name_match (coerce_go st ig fuel name) none none ig = none ∨
      (∀ j, j < fuel → st._name_match (itN j name) none none ig ≠ none) := by
  intro fuel
  induction fuel with
  | zero =>
    intro name
    right
    intro j hj
    omega
  | succ f ih =>
    intro name
    cases h : st._name_match name none none ig with
    | none =>
      left
      rw [coerce_go, h]
      exact h
    | some r =>
      rcases ih (inc_name_count name) with hl | hr
      · left
        rw [coerce_go, h]
        exact hl
      · right
        intro j hj
        cases j with
        | zero => rw [show itN 0 name = name from rfl, h]; exact Option.noConfusion
        | succ j' =>
          show st._name_match (itN j' (inc_name_count name)) none none ig ≠ none
          exact hr j' (by omega)

/-- C7: for every candidate name and optional element, `_coerce_name`
returns a name that matches no other element's name (the given element
being excluded from the comparison), and coercion is idempotent once
unique: when the candidate already matches no other element it is returned
unchanged. -/
theorem c7_thm (st : LayersList) (name : String) (olayer : Option Layer) :
    st._name_match (st._coerce_name name olayer) none none olayer = none ∧
    (st._name_match name none none olayer = none →
      st._coerce_name name olayer = name) := by
  constructor
  · rcases coerce_go_cases st olayer (st.list.length + 1) name with h | h
    · exact h
    · exfalso
      have hnodup := itN_list_nodup name (st.list.length + 1)
      have hsub : ((List.range (st.list.length + 1)).map (fun j => itN j name)).toFinset
          ⊆ (otherNames st olayer).toFinset := by
        intro x hx
        rw [List.mem_toFinset] at hx
        obtain ⟨j, hj, rfl⟩ := List.mem_map.1 hx
        have hne := h j (List.mem_range.1 hj)
        rw [_name_match_eq_nmAux] at hne
        obtain ⟨r, hr⟩ := Option.ne_none_iff_exists'.1 hne
        rw [List.mem_toFinset]
        exact nmAux_some_mem _ olayer st.list 0 r hr
      have h1 : st.list.length + 1 ≤ (otherNames st olayer).toFinset.card := by
        have hlen : ((List.range (st.list.length + 1)).map (fun j => itN j name)).length
            = st.list.length + 1 := by simp
        rw [← hlen, ← List.toFinset_card_of_nodup hnodup]
        exact Finset.card_le_card hsub
      have h2 : (otherNames st olayer).toFinset.card ≤ st.list.length := by
        calc (otherNames st olayer).toFinset.card
            ≤ (otherNames st olayer).length := List.toFinset_card_le _
          _ = (st.list.filter (fun x => ! isIgn olayer x)).length := by
              unfold otherNames; rw [List.length_map]
          _ ≤ st.list.length := List.length_filter_le _ _
      omega
  · intro h
    unfold LayersList._coerce_name
    rw [coerce_go, h]

/-- C7, witness: coercing a non-colliding name on a one-element collection
returns it unchanged, and the result matches no other element. -/
theorem c7_witness :
    LayersList._name_match ⟨[mkL 1 "x" false], none⟩
      (LayersList._coerce_name ⟨[mkL 1 "x" false], none⟩ "y" none) none none none = none ∧
    LayersList._coerce_name ⟨[mkL 1 "x" false], none⟩ "y" none = "y" :=
  ⟨(c7_thm ⟨[mkL 1 "x" false], none⟩ "y" none).1,
   (c7_thm ⟨[mkL 1 "x" false], none⟩ "y" none).2 (by decide)⟩

/-! ### Spec-conformance checks of the modelled `inc_name_count`, and the
drag-move targets that *do* produce the spec's expected orders -/

lemma inc_name_count_fresh : inc_name_count "foo" = "foo [1]" := by decide

lemma inc_name_count_counted : inc_name_count "foo [1]" = "foo [2]" := by decide

lemma coerce_name_collision : st4._coerce_name "A" none = "A [1]" := by decide

lemma move_to_end_single :
    (st4._move_layers 0 4).state.list.map Layer.name = ["B", "C", "D", "A"] := by decide

lemma move_to_end_multi :
    (st5._move_layers 1 5).state.list.map Layer.name = ["A", "C", "E", "B", "D"] := by decide

end LayersModel
